import Mathlib

/-!
Verification of the risk-assessment webhook pipeline (src/lambda_function.py).

The Python program is shallowly embedded: JSON values become the inductive
type J, Python exceptions become the error side of Except String, and every
external collaborator (SSM secret store, GitHub HTTP call, JIRA HTTP call,
S3 object fetch, Bedrock model invocation) is represented by the outcome it
delivers for the single invocation at hand, collected in a World record.
The handler itself is translated statement by statement.

Modelling notes, fixed once here:
- json.dumps serialization is modelled by keeping the structured J value
  in the response body instead of a rendered string.
- The API-gateway unwrapping (json.loads of a "body" string field) is not
  modelled; the handler is applied to the already-parsed event body, which
  is the case "body" not in event of line 151.
- Python local-variable semantics matter for jira_data: it is assigned only
  inside the try block at line 184, so reading it at line 202 when no
  assignment happened raises UnboundLocalError; the embedding makes that
  explicit.
- Python str is modelled by Lean String (in this toolchain a wrapper of
  List Char); the regex character classes are restricted to their ASCII
  meaning, which covers every string the claims mention.
-/

/-- JSON values, the payloads the handler manipulates. Objects are
association lists with the first binding of a key authoritative. -/
inductive J where
  | null : J
  | bool : Bool → J
  | num : Int → J
  | str : String → J
  | arr : List J → J
  | obj : List (String × J) → J

/-- Python truthiness of a JSON value, as used by lines 159 and 58. -/
def jTruthy : J → Bool
  | .null => false
  | .bool b => b
  | .num n => n ≠ 0
  | .str s => s ≠ ""
  | .arr xs => !xs.isEmpty
  | .obj fs => !fs.isEmpty

/-- Python d.get(k): returns the binding if the receiver is a dict, raises
AttributeError otherwise. -/
def pyGet (o : J) (k : String) : Except String (Option J) :=
  match o with
  | .obj fs => .ok (List.lookup k fs)
  | _ => .error ("AttributeError: object has no attribute get " ++ k)

/-- Python d.get(k, default). -/
def pyGetD (o : J) (k : String) (dflt : J) : Except String J :=
  match pyGet o k with
  | .ok (some v) => .ok v
  | .ok none => .ok dflt
  | .error e => .error e

/-- Python d[k] on a JSON value: KeyError when the key is absent, TypeError
when the receiver is not a dict. -/
def pyIndex (o : J) (k : String) : Except String J :=
  match o with
  | .obj fs =>
    match List.lookup k fs with
    | some v => .ok v
    | none => .error ("KeyError: " ++ k)
  | _ => .error ("TypeError: value is not subscriptable by string " ++ k)

/-- Python a[i] on a JSON value with a nonnegative integer index. -/
def pyIndexNat (o : J) (i : Nat) : Except String J :=
  match o with
  | .arr xs =>
    match xs.get? i with
    | some v => .ok v
    | none => .error "IndexError: list index out of range"
  | _ => .error "TypeError: value is not subscriptable by integer"

/-- Coercion a Python str-expecting primitive performs: TypeError on any
non-string value. -/
def pyAsStr (o : J) : Except String String :=
  match o with
  | .str s => .ok s
  | _ => .error "TypeError: expected str"

/-- Outcomes of the external collaborators for one invocation. Each field
is the result the corresponding I/O action would deliver: the ok side is
the value produced, the error side the exception message raised. -/
structure World where
  githubToken : Except String String
  diffHttp : Except String (Nat × String)
  jiraCreds : Except String (String × String × String)
  jiraHttp : Except String (Nat × String × J)
  s3Rows : Except String (List (List (String × String)))
  claudeResult : Except String String

/-- Replace the claudeResult field, leaving every other collaborator
outcome unchanged. -/
def setClaude (w : World) (c : Except String String) : World :=
  ⟨w.githubToken, w.diffHttp, w.jiraCreds, w.jiraHttp, w.s3Rows, c⟩

/-- Replace the s3Rows field, leaving every other collaborator outcome
unchanged. -/
def setS3 (w : World) (s : Except String (List (List (String × String)))) : World :=
  ⟨w.githubToken, w.diffHttp, w.jiraCreds, w.jiraHttp, s, w.claudeResult⟩

/-- fetch_pr_diff, lines 19 to 33: obtain the token, issue the GET on the
diff URL, raise on a non-200 status, return the diff text otherwise.
requests.get raises before any transfer when the URL is None or not a
string. -/
def fetch_pr_diff (w : World) (diffUrl : Option J) : Except String String :=
  match w.githubToken with
  | .error e => .error e
  | .ok _token =>
    match diffUrl with
    | none => .error "MissingSchema: Invalid URL None"
    | some u =>
      match u with
      | .str _ =>
        match w.diffHttp with
        | .error e => .error e
        | .ok sc =>
          if sc.1 ≠ 200 then
            .error ("GitHub API returned " ++ toString sc.1 ++ ": " ++ sc.2)
          else
            .ok sc.2
      | _ => .error "MissingSchema: Invalid URL"

/-- The dict fetch_jira_ticket returns, line 60 to 64; the key field is
always the extracted key and the other two are the raw JSON values read
from the response. -/
structure JiraData where
  key : String
  summary : J
  description : J

/-- fetch_jira_ticket, lines 41 to 64: credentials, GET, raise on non-200,
then read fields.summary and conditionally the nested description text. -/
def fetch_jira_ticket (w : World) (jiraKey : String) : Except String JiraData :=
  match w.jiraCreds with
  | .error e => .error e
  | .ok _creds =>
    match w.jiraHttp with
    | .error e => .error e
    | .ok std =>
      if std.1 ≠ 200 then
        .error ("Failed to fetch JIRA ticket " ++ jiraKey ++ ": " ++ std.2.1)
      else
        match pyIndex std.2.2 "fields" with
        | .error e => .error e
        | .ok fields =>
          match pyIndex fields "summary" with
          | .error e => .error e
          | .ok summary =>
            match pyGet fields "description" with
            | .error e => .error e
            | .ok descOpt =>
              if jTruthy (descOpt.getD J.null) then
                match pyIndex (descOpt.getD J.null) "content" with
                | .error e => .error e
                | .ok c1 =>
                  match pyIndexNat c1 0 with
                  | .error e => .error e
                  | .ok e1 =>
                    match pyIndex e1 "content" with
                    | .error e => .error e
                    | .ok c2 =>
                      match pyIndexNat c2 0 with
                      | .error e => .error e
                      | .ok e2 =>
                        match pyIndex e2 "text" with
                        | .error e => .error e
                        | .ok txt => .ok ⟨jiraKey, summary, txt⟩
              else
                .ok ⟨jiraKey, summary, J.str "No description found"⟩

/-- ASCII word character, the class backslash-w of the pattern at line 68. -/
def isWordChar (c : Char) : Bool := c.isAlpha || c.isDigit || c == '_'

/-- Attempt of the pattern word-chars, hyphen, digits, word-boundary at the
head of s. The leading word-boundary is checked by the caller. A greedy
word-char run can only be followed by the hyphen when it is maximal, and a
greedy digit run followed by a word boundary admits no backtracking, so the
regex attempt reduces to maximal runs. -/
def matchHere (s : List Char) : Option (List Char) :=
  let w := s.takeWhile isWordChar
  let r1 := s.dropWhile isWordChar
  if w.isEmpty then none
  else
    match r1 with
    | '-' :: r2 =>
      let d := r2.takeWhile Char.isDigit
      let r3 := r2.dropWhile Char.isDigit
      if d.isEmpty then none
      else
        match r3 with
        | [] => some (w ++ '-' :: d)
        | c :: _ => if isWordChar c then none else some (w ++ '-' :: d)
    | _ => none

/-- re.search scanning, leftmost attempt first; prevWord tracks whether the
character before the current position is a word character, so that the
leading word-boundary of the pattern can be decided locally. -/
def searchKey : Bool → List Char → Option (List Char)
  | _, [] => none
  | prevWord, c :: rest =>
    if !prevWord && isWordChar c then
      match matchHere (c :: rest) with
      | some m => some m
      | none => searchKey true rest
    else
      searchKey (isWordChar c) rest

/-- extract_jira_key, lines 66 to 69: first match of the pattern in the
text, upper-cased, or None. -/
def extract_jira_key (text : String) : Option String :=
  (searchKey false text.toList).map (fun m => String.mk (m.map Char.toUpper))

/-- Insert with override, the effect of repeated dict assignment at
line 82 when the same Repo appears in several rows. -/
def upsert (m : List (String × String)) (k v : String) : List (String × String) :=
  if m.any (fun p => p.1 = k) then
    m.map (fun p => if p.1 = k then (k, v) else p)
  else
    m ++ [(k, v)]

/-- Python row[k] for a CSV row modelled as an association list of column
name to cell text. -/
def pyRowGet (row : List (String × String)) (k : String) : Except String String :=
  match List.lookup k row with
  | some v => .ok v
  | none => .error ("KeyError: " ++ k)

/-- The loop body of lines 79 to 82 over all rows, threading the map and
propagating the first exception. -/
def buildPromptMap : List (List (String × String)) → List (String × String) →
    Except String (List (String × String))
  | [], acc => .ok acc
  | row :: rows, acc =>
    match pyRowGet row "Repo" with
    | .error e => .error e
    | .ok repo =>
      match pyRowGet row "Prompt" with
      | .error e => .error e
      | .ok prompt => buildPromptMap rows (upsert acc repo.trim prompt.trim)

/-- load_prompt_templates_from_s3, lines 71 to 87: fetch and parse the CSV
into a repo-to-prompt map; any exception is swallowed and the empty map
returned. The World delivers the parsed rows (or the fetch/parse
exception); a row missing a column surfaces as the KeyError of line 80. -/
def load_prompt_templates_from_s3 (w : World) : List (String × String) :=
  match w.s3Rows with
  | .error _ => []
  | .ok rows =>
    match buildPromptMap rows [] with
    | .ok m => m
    | .error _ => []

/-- One replacement pass of Python str.replace with fuel, structurally
recursive so that concrete evaluations reduce in the kernel. Occurrences
are found left to right, non-overlapping, and scanning resumes after the
substituted value, which is therefore never re-scanned within the pass. -/
def replaceFuel (pat rep : List Char) : Nat → List Char → List Char
  | 0, s => s
  | _ + 1, [] => []
  | n + 1, c :: rest =>
    if !pat.isEmpty && pat.isPrefixOf (c :: rest) then
      rep ++ replaceFuel pat rep n (List.drop (pat.length - 1) rest)
    else
      c :: replaceFuel pat rep n rest

/-- Python s.replace(pat, rep) on character lists, for nonempty pat. -/
def replaceList (pat rep s : List Char) : List Char :=
  replaceFuel pat rep s.length s

/-- The context dict restricted to the five keys build_final_prompt reads;
none models a key absent from the dict. -/
structure PromptContext where
  githubTitle : Option String
  githubDescription : Option String
  jiraTitle : Option String
  jiraDescription : Option String
  branchDiff : Option String

/-- The five placeholder tokens paired with the context values the loop of
lines 100 to 103 substitutes, in the iteration order of the placeholders
dict literal of lines 92 to 98. -/
def ctxPairs (ctx : PromptContext) : List (List Char × List Char) :=
  [ ("${githubTitle}".toList, (ctx.githubTitle.getD "").toList)
  , ("${githubDescription}".toList, (ctx.githubDescription.getD "").toList)
  , ("${jiraTitle}".toList, (ctx.jiraTitle.getD "").toList)
  , ("${jiraDescription}".toList, (ctx.jiraDescription.getD "").toList)
  , ("${branchDiff}".toList, (ctx.branchDiff.getD "").toList) ]

/-- Sequential replacement of a list of pattern-value pairs, left to
right, each pair by one full str.replace pass. -/
def seqReplace (ps : List (List Char × List Char)) (s : List Char) : List Char :=
  ps.foldl (fun acc pv => replaceList pv.1 pv.2 acc) s

/-- build_final_prompt, lines 89 to 106: the five template.replace calls in
dict order. -/
def build_final_prompt (template : String) (ctx : PromptContext) : String :=
  String.mk (seqReplace (ctxPairs ctx) template.toList)

/-- The per-invocation context dict of lines 199 to 205, with the raw JSON
values Python would store in it. -/
structure JCtx where
  githubTitle : J
  githubDescription : J
  jiraTitle : J
  jiraDescription : J
  branchDiff : J

/-- String coercion of the five context values in placeholder order; this
is where the TypeError of len(value) or str.replace on a non-string
context value surfaces inside build_final_prompt. -/
def ctxStrings (ctx : JCtx) : Except String (String × String × String × String × String) :=
  match pyAsStr ctx.githubTitle with
  | .error e => .error e
  | .ok v1 =>
    match pyAsStr ctx.githubDescription with
    | .error e => .error e
    | .ok v2 =>
      match pyAsStr ctx.jiraTitle with
      | .error e => .error e
      | .ok v3 =>
        match pyAsStr ctx.jiraDescription with
        | .error e => .error e
        | .ok v4 =>
          match pyAsStr ctx.branchDiff with
          | .error e => .error e
          | .ok v5 => .ok (v1, v2, v3, v4, v5)

/-- build_final_prompt as invoked from the handler on the raw context
dict: coerce the five values, then substitute. -/
def build_final_prompt_py (template : String) (ctx : JCtx) : Except String String :=
  match ctxStrings ctx with
  | .error e => .error e
  | .ok vs =>
    .ok (build_final_prompt template
      ⟨some vs.1, some vs.2.1, some vs.2.2.1, some vs.2.2.2.1, some vs.2.2.2.2⟩)

/-- call_claude, lines 108 to 137: the whole invocation and response
parsing sit in one try block; any exception yields the literal sentinel. -/
def call_claude (w : World) (_prompt : String) : String :=
  match w.claudeResult with
  | .ok out => out
  | .error _ => "⚠️ Error running Claude model"

/-- The HTTP response of the handler; the body keeps the structured value
that json.dumps would render. -/
structure Response where
  statusCode : Nat
  body : J

/-- The three-way outcome of the inline validation, lines 154 to 167. -/
inductive Validation where
  | notOpened : Validation
  | draftOrMissing : Validation
  | accepted : J → J → J → J → Option J → Validation

/-- Lines 154 to 167: reject non-opened actions, reject a missing or
falsy pull_request exactly like a draft one, otherwise collect title,
number, repository full name and diff URL with their defaults. -/
def validate_event (body : J) : Except String Validation :=
  match pyGet body "action" with
  | .error e => .error e
  | .ok action =>
    let isOpened := match action with
      | some (J.str s) => s = "opened"
      | _ => false
    if isOpened = false then .ok .notOpened
    else
      match pyGetD body "pull_request" (J.obj []) with
      | .error e => .error e
      | .ok prData =>
        if jTruthy prData = false then .ok .draftOrMissing
        else
          match pyGetD prData "draft" (J.bool false) with
          | .error e => .error e
          | .ok draft =>
            if jTruthy draft then .ok .draftOrMissing
            else
              match pyGetD prData "title" (J.str "Unknown PR") with
              | .error e => .error e
              | .ok prTitle =>
                match pyGetD prData "number" (J.str "Unknown") with
                | .error e => .error e
                | .ok prNumber =>
                  match pyGetD body "repository" (J.obj []) with
                  | .error e => .error e
                  | .ok repoObj =>
                    match pyGetD repoObj "full_name" (J.str "Unknown Repo") with
                    | .error e => .error e
                    | .ok repoFullName =>
                      match pyGet prData "diff_url" with
                      | .error e => .error e
                      | .ok diffUrl =>
                        .ok (.accepted prData prTitle prNumber repoFullName diffUrl)

/-- Lines 179 to 190: extract the key, and only on a successful fetch is
jira_data bound; a fetch exception is logged and leaves it unbound, as
does the absence of a key. -/
def jira_stage (w : World) (jiraKey : Option String) : Option JiraData :=
  match jiraKey with
  | some k =>
    match fetch_jira_ticket w k with
    | .ok jd => some jd
    | .error _ => none
  | none => none

/-- Lines 193 to 196: load the template map, re-read the repository name,
and select the prompt with the literal default. A non-hashable name value
raises TypeError inside dict.get. -/
def repo_prompt_stage (w : World) (body : J) : Except String String :=
  match pyGetD body "repository" (J.obj []) with
  | .error e => .error e
  | .ok repoObj =>
    match pyGetD repoObj "name" (J.str "") with
    | .error e => .error e
    | .ok repoName =>
      match repoName with
      | .str s =>
        .ok ((List.lookup s (load_prompt_templates_from_s3 w)).getD
          "Default Risk Assessment Prompt")
      | .arr _ => .error "TypeError: unhashable type list"
      | .obj _ => .error "TypeError: unhashable type dict"
      | _ => .ok "Default Risk Assessment Prompt"

/-- The UnboundLocalError message raised at line 202 when jira_data was
never assigned. -/
def unboundLocalMsg : String :=
  "UnboundLocalError: local variable jira_data referenced before assignment"

/-- The success payload of lines 218 to 225. -/
def success_body (prNumber : J) (diffLen : Nat) : J :=
  J.obj [ ("message", J.str "PR event processed successfully")
        , ("pr_number", prNumber)
        , ("diff_length", J.num (Int.ofNat diffLen)) ]

/-- Lines 199 to 225: build the context dict (where an unbound jira_data
raises), substitute into the template, invoke the model (result only
logged), and return the success payload. -/
def context_stage (w : World) (prData prNumber : J) (diff : String)
    (jiraData : Option JiraData) (repoPrompt : String) : Except String Response :=
  match pyGetD prData "title" (J.str "") with
  | .error e => .error e
  | .ok gTitle =>
    match pyGetD prData "body" (J.str "") with
    | .error e => .error e
    | .ok gDesc =>
      match jiraData with
      | none => .error unboundLocalMsg
      | some jd =>
        match build_final_prompt_py repoPrompt ⟨gTitle, gDesc, jd.summary, jd.description, J.str diff⟩ with
        | .error e => .error e
        | .ok finalPrompt =>
          let _risk := call_claude w finalPrompt
          .ok ⟨200, success_body prNumber diff.length⟩

/-- The body of the try block of lambda_handler, lines 145 to 225, as one
exception-propagating computation. -/
def handler_main (w : World) (event : J) : Except String Response :=
  match validate_event event with
  | .error e => .error e
  | .ok .notOpened => .ok ⟨200, J.obj [("message", J.str "Not a new PR event")]⟩
  | .ok .draftOrMissing => .ok ⟨200, J.obj [("message", J.str "Ignoring draft PR")]⟩
  | .ok (.accepted prData prTitle prNumber _repoFullName diffUrl) =>
    match fetch_pr_diff w diffUrl with
    | .error e => .error e
    | .ok diff =>
      match pyAsStr prTitle with
      | .error e => .error e
      | .ok titleStr =>
        let jiraData := jira_stage w (extract_jira_key titleStr)
        match repo_prompt_stage w event with
        | .error e => .error e
        | .ok repoPrompt => context_stage w prData prNumber diff jiraData repoPrompt

/-- lambda_handler, lines 139 to 232: run the pipeline, catching any
exception at the top level into a 500 response with an error body. -/
def lambda_handler (w : World) (event : J) : Response :=
  match handler_main w event with
  | .ok r => r
  | .error e => ⟨500, J.obj [("error", J.str e)]⟩

/-- A concrete inbound event for exercising the ticket-fetch failure: a
non-draft opened pull request whose title holds a ticket key. -/
def c1Event : J :=
  J.obj [ ("action", J.str "opened")
        , ("pull_request", J.obj [ ("title", J.str "ABC-123 fix login")
                                 , ("number", J.num 7)
                                 , ("draft", J.bool false)
                                 , ("diff_url", J.str "https://api.github.test/diff") ])
        , ("repository", J.obj [ ("name", J.str "repo"), ("full_name", J.str "org/repo") ]) ]

/-- A world where the diff fetch succeeds but the JIRA ticket fetch raises
a transport exception; every other collaborator behaves. -/
def c1World : World :=
  ⟨.ok "ghToken", .ok (200, "DIFFTEXT"), .error "ConnectionError: jira unreachable",
   .error "unused", .ok [[("Repo", "repo"), ("Prompt", "P ${branchDiff}")]], .ok "assessment"⟩

/-- The shape of a key match: word characters, hyphen, digits. Both
character classes already contain both cases of the letters, which is the
case-insensitivity of the pattern. -/
def KeyShape (m : List Char) : Prop :=
  ∃ w d, m = w ++ '-' :: d ∧ w ≠ [] ∧ (∀ c ∈ w, isWordChar c = true) ∧
    d ≠ [] ∧ (∀ c ∈ d, c.isDigit = true)

/-- The trailing word boundary: the text after the match does not start
with a word character. -/
def BoundaryEnd (rest : List Char) : Prop :=
  ∀ c, rest.head? = some c → isWordChar c = false

/-- A key match inside s at the position right after pre; prev says
whether a word character immediately precedes s, which decides the
leading word boundary when pre is empty. -/
def MatchSplit (prev : Bool) (s pre m rest : List Char) : Prop :=
  s = pre ++ m ++ rest ∧ KeyShape m ∧
  (pre = [] → prev = false) ∧
  (∀ c, pre.getLast? = some c → isWordChar c = false) ∧
  BoundaryEnd rest

/-- The leftmost key match of s. -/
def FirstKeyAt (prev : Bool) (s m : List Char) : Prop :=
  ∃ pre rest, MatchSplit prev s pre m rest ∧
    ∀ pre2 m2 rest2, MatchSplit prev s pre2 m2 rest2 → pre.length ≤ pre2.length

/-- Simultaneous one-pass substitution, modelled from the spec words: scan
the template left to right; at a position where a placeholder token
occurs, emit its value and continue after the token, so each occurrence
is replaced exactly once and values are never re-scanned. -/
def simSubst (ps : List (List Char × List Char)) (t : List Char) : List Char :=
  match t with
  | [] => []
  | c :: rest =>
    match ps.find? (fun pv => !pv.1.isEmpty && pv.1.isPrefixOf (c :: rest)) with
    | some pv => pv.2 ++ simSubst ps (List.drop (pv.1.length - 1) rest)
    | none => c :: simSubst ps rest
termination_by t.length
decreasing_by
  · simp only [List.length_cons, List.length_drop]
    omega
  · simp

/-- A value free of the dollar character, the sufficient condition under
which substituted text can never take part in a later token occurrence. -/
def NoDollar (v : List Char) : Prop := '$' ∉ v

/-- The shape every placeholder token has: a leading dollar and a
dollar-free tail. -/
def TokShaped (p : List Char) : Prop := ∃ q, p = '$' :: q ∧ '$' ∉ q

/-- Well-formedness of a template against a token list: every suffix that
starts with a dollar starts a full token. -/
def DollarStartsToken (ps : List (List Char × List Char)) (t : List Char) : Prop :=
  ∀ u ∈ t.tails, u.head? = some '$' → ∃ pv ∈ ps, pv.1 <+: u

/-- The five placeholder tokens, in the iteration order of the
placeholders dict. -/
def phTokens : List (List Char) :=
  [ "${githubTitle}".toList, "${githubDescription}".toList, "${jiraTitle}".toList
  , "${jiraDescription}".toList, "${branchDiff}".toList ]

/-- The dollar-free condition on all five context values. -/
def CtxNoDollar (ctx : PromptContext) : Prop :=
  '$' ∉ (ctx.githubTitle.getD "").toList ∧
  '$' ∉ (ctx.githubDescription.getD "").toList ∧
  '$' ∉ (ctx.jiraTitle.getD "").toList ∧
  '$' ∉ (ctx.jiraDescription.getD "").toList ∧
  '$' ∉ (ctx.branchDiff.getD "").toList

instance (ctx : PromptContext) : Decidable (CtxNoDollar ctx) := by
  unfold CtxNoDollar
  infer_instance

instance (ps : List (List Char × List Char)) (t : List Char) :
    Decidable (DollarStartsToken ps t) := by
  unfold DollarStartsToken
  infer_instance

theorem pyGet_obj (fs : List (String × J)) (k : String) :
    pyGet (J.obj fs) k = .ok (List.lookup k fs) := rfl

theorem pyGetD_obj (fs : List (String × J)) (k : String) (d : J) :
    pyGetD (J.obj fs) k d = .ok ((List.lookup k fs).getD d) := by
  cases h : List.lookup k fs <;> simp [pyGetD, pyGet, h]

/-- C1: the spec says a non-draft opened PR whose ticket fetch raises still
yields a 200 response carrying pr_number and diff_length. On the code the
exception is caught and logged at line 188, but jira_data is then never
assigned, so line 202 raises UnboundLocalError and the top-level handler
answers 500: the code contradicts the intent of its own logging-and-continue
handler. This theorem evaluates the pipeline at such an input. -/
theorem claim_C1 :
    lambda_handler c1World c1Event =
      ⟨500, J.obj [("error", J.str unboundLocalMsg)]⟩ := rfl

/-- Validation helper: any action other than the string opened short
circuits to the not-a-PR outcome. -/
theorem validate_notOpened (fs : List (String × J))
    (h : List.lookup "action" fs ≠ some (J.str "opened")) :
    validate_event (J.obj fs) = .ok .notOpened := by
  unfold validate_event
  rw [pyGet_obj]
  cases ha : List.lookup "action" fs with
  | none => simp
  | some v => cases v <;> simp_all

/-- Validation helper: a missing, falsy, or draft pull_request is ignored
through the single draft path. -/
theorem validate_draftOrMissing (fs : List (String × J))
    (ha : List.lookup "action" fs = some (J.str "opened"))
    (hcase : (List.lookup "pull_request" fs).getD (J.obj []) = J.obj [] ∨
      (∃ pr, List.lookup "pull_request" fs = some pr ∧ jTruthy pr = false) ∨
      (∃ pl d, List.lookup "pull_request" fs = some (J.obj pl) ∧
        jTruthy (J.obj pl) = true ∧ List.lookup "draft" pl = some d ∧ jTruthy d = true)) :
    validate_event (J.obj fs) = .ok .draftOrMissing := by
  unfold validate_event
  rw [pyGet_obj, ha]
  rcases hcase with hmiss | ⟨pr, hpr, hfal⟩ | ⟨pl, d, hpl, htru, hd, hdt⟩
  · cases hp : List.lookup "pull_request" fs with
    | none => simp [pyGetD_obj, hp, jTruthy]
    | some v =>
      rw [hp] at hmiss
      simp only [Option.getD] at hmiss
      subst hmiss
      simp [pyGetD_obj, hp, jTruthy]
  · simp [pyGetD_obj, hpr, hfal]
  · simp [pyGetD_obj, hpl, htru, hd, hdt]

/-- Validation helper: an opened, truthy, non-draft pull_request is
accepted with the fields and defaults of lines 164 to 167. -/
theorem validate_accepted (fs pl ro : List (String × J))
    (ha : List.lookup "action" fs = some (J.str "opened"))
    (hpl : List.lookup "pull_request" fs = some (J.obj pl))
    (htru : jTruthy (J.obj pl) = true)
    (hdraft : ∀ d, List.lookup "draft" pl = some d → jTruthy d = false)
    (hro : (List.lookup "repository" fs).getD (J.obj []) = J.obj ro) :
    validate_event (J.obj fs) =
      .ok (.accepted (J.obj pl)
        ((List.lookup "title" pl).getD (J.str "Unknown PR"))
        ((List.lookup "number" pl).getD (J.str "Unknown"))
        ((List.lookup "full_name" ro).getD (J.str "Unknown Repo"))
        (List.lookup "diff_url" pl)) := by
  unfold validate_event
  rw [pyGet_obj, ha]
  cases hd : List.lookup "draft" pl with
  | none =>
    simp only [pyGetD_obj, hpl, Option.getD_some, htru, hd, Option.getD_none, pyGet_obj, hro]
    simp [jTruthy]
  | some d =>
    have hdf := hdraft d hd
    simp only [pyGetD_obj, hpl, Option.getD_some, htru, hd, Option.getD_some, pyGet_obj, hro, hdf]
    simp

/-- C6: the inline validation of lines 151 to 167 has exactly three
outcomes: every event whose action is not the string opened is ignored
whatever its other fields; an opened event whose pull_request is missing
or falsy, or whose draft field is truthy, is ignored by the one draft
path, so a missing pull_request is treated identically to a draft; and
otherwise validation accepts, carrying the PR title, number, repository
full name and diff URL with their Python defaults. -/
theorem claim_C6 :
    (∀ fs : List (String × J), List.lookup "action" fs ≠ some (J.str "opened") →
      validate_event (J.obj fs) = .ok .notOpened)
    ∧
    (∀ fs : List (String × J), List.lookup "action" fs = some (J.str "opened") →
      ((List.lookup "pull_request" fs).getD (J.obj []) = J.obj [] ∨
        (∃ pr, List.lookup "pull_request" fs = some pr ∧ jTruthy pr = false) ∨
        (∃ pl d, List.lookup "pull_request" fs = some (J.obj pl) ∧
          jTruthy (J.obj pl) = true ∧ List.lookup "draft" pl = some d ∧ jTruthy d = true)) →
      validate_event (J.obj fs) = .ok .draftOrMissing)
    ∧
    (∀ (fs pl ro : List (String × J)),
      List.lookup "action" fs = some (J.str "opened") →
      List.lookup "pull_request" fs = some (J.obj pl) →
      jTruthy (J.obj pl) = true →
      (∀ d, List.lookup "draft" pl = some d → jTruthy d = false) →
      (List.lookup "repository" fs).getD (J.obj []) = J.obj ro →
      validate_event (J.obj fs) =
        .ok (.accepted (J.obj pl)
          ((List.lookup "title" pl).getD (J.str "Unknown PR"))
          ((List.lookup "number" pl).getD (J.str "Unknown"))
          ((List.lookup "full_name" ro).getD (J.str "Unknown Repo"))
          (List.lookup "diff_url" pl))) :=
  ⟨validate_notOpened, validate_draftOrMissing, validate_accepted⟩

/-- C6 witness: a concrete accepted event discharging the accepted-branch
hypotheses. -/
theorem claim_C6_witness :
    validate_event (J.obj [ ("action", J.str "opened")
      , ("pull_request", J.obj [("title", J.str "T"), ("number", J.num 3), ("diff_url", J.str "u")])
      , ("repository", J.obj [("full_name", J.str "o/r")]) ]) =
      .ok (.accepted (J.obj [("title", J.str "T"), ("number", J.num 3), ("diff_url", J.str "u")])
        (J.str "T") (J.num 3) (J.str "o/r") (some (J.str "u"))) :=
  claim_C6.2.2 _ [("title", J.str "T"), ("number", J.num 3), ("diff_url", J.str "u")]
    [("full_name", J.str "o/r")] rfl rfl rfl
    (fun _d h => Option.noConfusion h) rfl

/-- C7: diff retrieval failure is fatal and not retried. For every
non-draft opened event whose diff URL answers a non-200 status, the
pipeline stops at fetch_pr_diff, the exception propagates to the top
catch, and the 500 error body carries the status code inside the
message. -/
theorem claim_C7 (w : World) (fs pl ro : List (String × J)) (u tok text : String) (code : Nat)
    (ha : List.lookup "action" fs = some (J.str "opened"))
    (hpl : List.lookup "pull_request" fs = some (J.obj pl))
    (htru : jTruthy (J.obj pl) = true)
    (hdraft : ∀ d, List.lookup "draft" pl = some d → jTruthy d = false)
    (hro : (List.lookup "repository" fs).getD (J.obj []) = J.obj ro)
    (hurl : List.lookup "diff_url" pl = some (J.str u))
    (htok : w.githubToken = .ok tok)
    (hhttp : w.diffHttp = .ok (code, text))
    (hcode : code ≠ 200) :
    lambda_handler w (J.obj fs) =
        ⟨500, J.obj [("error",
          J.str ("GitHub API returned " ++ toString code ++ ": " ++ text))]⟩
      ∧ ∃ pre post,
          ("GitHub API returned " ++ toString code ++ ": " ++ text)
            = pre ++ toString code ++ post := by
  constructor
  · unfold lambda_handler handler_main
    rw [validate_accepted fs pl ro ha hpl htru hdraft hro, hurl]
    simp [fetch_pr_diff, htok, hhttp, hcode]
  · exact ⟨"GitHub API returned ", ": " ++ text, by simp [String.append_assoc]⟩

/-- C7 witness: a concrete opened event whose diff URL answers 503. -/
theorem claim_C7_witness :
    lambda_handler
        ⟨.ok "tk", .ok (503, "service unavailable"), .ok ("e", "t", "d"), .error "x", .error "y", .ok "r"⟩
        (J.obj [ ("action", J.str "opened")
          , ("pull_request", J.obj [("number", J.num 5), ("diff_url", J.str "https://u")])
          , ("repository", J.obj [("name", J.str "r")]) ]) =
        ⟨500, J.obj [("error",
          J.str ("GitHub API returned " ++ toString 503 ++ ": " ++ "service unavailable"))]⟩
      ∧ ∃ pre post,
          ("GitHub API returned " ++ toString 503 ++ ": " ++ "service unavailable")
            = pre ++ toString 503 ++ post :=
  claim_C7 _ _ [("number", J.num 5), ("diff_url", J.str "https://u")] [("name", J.str "r")]
    "https://u" "tk" "service unavailable" 503
    rfl rfl rfl (fun _d h => Option.noConfusion h) rfl rfl rfl rfl (by decide)

/-- C2: an opened non-draft PR whose diff fetch succeeds but whose title
holds no ticket key ends in a 500: nothing assigns jira_data, so the
context construction of line 202 raises UnboundLocalError, which the
top-level handler turns into the error response. -/
theorem claim_C2 (w : World) (fs pl ro : List (String × J)) (u tok dtext t rn : String)
    (ha : List.lookup "action" fs = some (J.str "opened"))
    (hpl : List.lookup "pull_request" fs = some (J.obj pl))
    (htru : jTruthy (J.obj pl) = true)
    (hdraft : ∀ d, List.lookup "draft" pl = some d → jTruthy d = false)
    (hro : (List.lookup "repository" fs).getD (J.obj []) = J.obj ro)
    (hurl : List.lookup "diff_url" pl = some (J.str u))
    (htok : w.githubToken = .ok tok)
    (hhttp : w.diffHttp = .ok (200, dtext))
    (htitle : List.lookup "title" pl = some (J.str t))
    (hkey : extract_jira_key t = none)
    (hname : (List.lookup "name" ro).getD (J.str "") = J.str rn) :
    lambda_handler w (J.obj fs) = ⟨500, J.obj [("error", J.str unboundLocalMsg)]⟩ := by
  unfold lambda_handler handler_main
  rw [validate_accepted fs pl ro ha hpl htru hdraft hro, hurl, htitle]
  simp only [fetch_pr_diff, htok, hhttp, Option.getD_some]
  simp only [pyAsStr, hkey, jira_stage]
  simp only [repo_prompt_stage, pyGetD_obj, hro, hname]
  simp only [context_stage, pyGetD_obj]
  simp

/-- C2 witness: a concrete opened PR with a key-free title. -/
theorem claim_C2_witness :
    lambda_handler
        ⟨.ok "tk", .ok (200, "DIFF"), .ok ("e", "t", "d"), .ok (200, "x", J.null), .error "y", .ok "r"⟩
        (J.obj [ ("action", J.str "opened")
          , ("pull_request", J.obj [("title", J.str "no ticket here"), ("number", J.num 5), ("diff_url", J.str "https://u")])
          , ("repository", J.obj [("name", J.str "r")]) ]) =
      ⟨500, J.obj [("error", J.str unboundLocalMsg)]⟩ :=
  claim_C2 _ _ [("title", J.str "no ticket here"), ("number", J.num 5), ("diff_url", J.str "https://u")]
    [("name", J.str "r")] "https://u" "tk" "DIFF" "no ticket here" "r"
    rfl rfl rfl (fun _d h => Option.noConfusion h) rfl rfl rfl rfl rfl rfl rfl

/-- The model invocation cannot influence the handler response: its result
is only logged, so replacing its outcome leaves the response unchanged. -/
theorem lh_claude_irrel (w : World) (c : Except String String) (e : J) :
    lambda_handler (setClaude w c) e = lambda_handler w e := rfl

/-- The substitution step can fail only through the coercion of the five
context values, never through the template, so two templates give the
same error behaviour and the same downstream response. -/
theorem context_stage_template_irrel (w : World) (a pn : J) (d : String)
    (j : Option JiraData) (rp1 rp2 : String) :
    context_stage w a pn d j rp1 = context_stage w a pn d j rp2 := by
  unfold context_stage
  cases h1 : pyGetD a "title" (J.str "") with
  | error e1 => rfl
  | ok gT =>
    dsimp only
    cases h2 : pyGetD a "body" (J.str "") with
    | error e2 => rfl
    | ok gD =>
      dsimp only
      cases j with
      | none => rfl
      | some jd =>
        dsimp only
        unfold build_final_prompt_py
        cases h3 : ctxStrings ⟨gT, gD, jd.summary, jd.description, J.str d⟩ with
        | error e3 => rfl
        | ok vs => rfl

/-- Changing the template-store outcome can change which prompt string is
selected but neither whether repo-prompt selection raises nor the raised
message. -/
theorem rps_s3 (w : World) (s : Except String (List (List (String × String)))) (body : J) :
    (∃ e, repo_prompt_stage (setS3 w s) body = .error e ∧ repo_prompt_stage w body = .error e)
    ∨ (∃ p q, repo_prompt_stage (setS3 w s) body = .ok p ∧ repo_prompt_stage w body = .ok q) := by
  unfold repo_prompt_stage
  cases h1 : pyGetD body "repository" (J.obj []) with
  | error e => exact Or.inl ⟨e, rfl, rfl⟩
  | ok ro =>
    dsimp only
    cases h2 : pyGetD ro "name" (J.str "") with
    | error e => exact Or.inl ⟨e, rfl, rfl⟩
    | ok rn =>
      dsimp only
      cases rn with
      | str nm => exact Or.inr ⟨_, _, rfl, rfl⟩
      | arr xs => exact Or.inl ⟨_, rfl, rfl⟩
      | obj fs => exact Or.inl ⟨_, rfl, rfl⟩
      | null => exact Or.inr ⟨_, _, rfl, rfl⟩
      | bool b => exact Or.inr ⟨_, _, rfl, rfl⟩
      | num n => exact Or.inr ⟨_, _, rfl, rfl⟩

/-- The template-store outcome cannot influence the handler response: a
failed or different load changes at most the prompt sent to the model,
and the model output is only logged. -/
theorem lh_s3_irrel (w : World) (s : Except String (List (List (String × String)))) (e : J) :
    lambda_handler (setS3 w s) e = lambda_handler w e := by
  have hf : ∀ du, fetch_pr_diff (setS3 w s) du = fetch_pr_diff w du := fun _ => rfl
  have hj : ∀ k, jira_stage (setS3 w s) k = jira_stage w k := fun _ => rfl
  have hcs : ∀ a pn d j rp, context_stage (setS3 w s) a pn d j rp = context_stage w a pn d j rp :=
    fun _ _ _ _ _ => rfl
  unfold lambda_handler handler_main
  cases hv : validate_event e with
  | error x => rfl
  | ok v =>
    cases v with
    | notOpened => rfl
    | draftOrMissing => rfl
    | accepted prData prTitle prNumber repoFullName diffUrl =>
      dsimp only
      rw [hf]
      cases hd : fetch_pr_diff w diffUrl with
      | error x => rfl
      | ok diff =>
        dsimp only
        cases ht : pyAsStr prTitle with
        | error x => rfl
        | ok titleStr =>
          dsimp only
          rw [hj]
          rcases rps_s3 w s e with ⟨er, hr1, hr2⟩ | ⟨p, q, hr1, hr2⟩
          · rw [hr1, hr2]
          · rw [hr1, hr2]
            dsimp only
            rw [hcs, context_stage_template_irrel w prData prNumber diff
              (jira_stage w (extract_jira_key titleStr)) p q]

/-- The last pipeline stage only ever succeeds with the fixed success
payload: status 200, message, pr_number and diff length. -/
theorem context_stage_ok (w : World) (a pn : J) (d : String) (j : Option JiraData)
    (rp : String) (r : Response) (h : context_stage w a pn d j rp = .ok r) :
    r = ⟨200, success_body pn d.length⟩ := by
  unfold context_stage at h
  dsimp only at h
  repeat' split at h
  all_goals cases h
  all_goals rfl

/-- Every successful run of the try block returns one of the two ignore
payloads or the success payload, always with status 200. -/
theorem handler_main_ok (w : World) (ev : J) (r : Response)
    (h : handler_main w ev = .ok r) :
    (∃ m, r = ⟨200, J.obj [("message", J.str m)]⟩) ∨
      (∃ pn dl, r = ⟨200, success_body pn dl⟩) := by
  unfold handler_main at h
  dsimp only at h
  repeat' split at h
  all_goals first
    | (cases h; exact Or.inl ⟨_, rfl⟩)
    | (cases h)
    | exact Or.inr ⟨_, _, context_stage_ok _ _ _ _ _ _ _ h⟩

/-- C8: model-invocation failure is non-fatal. When the invocation raises,
call_claude returns the literal sentinel string; and the handler response
is entirely independent of the model outcome, so the HTTP status is
whatever the pipeline would have produced on model success, never an
error triggered by the model. -/
theorem claim_C8 :
    (∀ (w : World) (p msg : String), w.claudeResult = .error msg →
      call_claude w p = "⚠️ Error running Claude model")
    ∧ (∀ (w : World) (c : Except String String) (ev : J),
        lambda_handler (setClaude w c) ev = lambda_handler w ev)
    ∧ (∀ (w : World) (ev : J) (msg out : String),
        lambda_handler (setClaude w (.error msg)) ev
          = lambda_handler (setClaude w (.ok out)) ev) := by
  refine ⟨?_, ?_, ?_⟩
  · intro w p msg h
    unfold call_claude
    rw [h]
  · intro w c ev
    exact lh_claude_irrel w c ev
  · intro w ev msg out
    exact (lh_claude_irrel w (.error msg) ev).trans (lh_claude_irrel w (.ok out) ev).symm

/-- C8 witness: a world whose model invocation raises. -/
theorem claim_C8_witness :
    call_claude ⟨.ok "t", .ok (200, "d"), .ok ("a", "b", "c"), .ok (200, "x", J.null), .ok [], .error "throttled"⟩
      "some prompt" = "⚠️ Error running Claude model" :=
  claim_C8.1 _ "some prompt" "throttled" rfl

/-- C9: template-store failure is non-fatal. The loader swallows every
exception into the empty mapping; with the store failing the selected
prompt is the literal default for any repository; and the handler
response is entirely independent of the store outcome, so the pipeline
proceeds exactly as on a successful load. -/
theorem claim_C9 :
    (∀ (w : World) (msg : String), w.s3Rows = .error msg →
      load_prompt_templates_from_s3 w = [])
    ∧ (∀ (w : World) (fs ro : List (String × J)) (rn msg : String),
        w.s3Rows = .error msg →
        (List.lookup "repository" fs).getD (J.obj []) = J.obj ro →
        (List.lookup "name" ro).getD (J.str "") = J.str rn →
        repo_prompt_stage w (J.obj fs) = .ok "Default Risk Assessment Prompt")
    ∧ (∀ (w : World) (s : Except String (List (List (String × String)))) (ev : J),
        lambda_handler (setS3 w s) ev = lambda_handler w ev) := by
  refine ⟨?_, ?_, ?_⟩
  · intro w msg h
    unfold load_prompt_templates_from_s3
    rw [h]
  · intro w fs ro rn msg h hro hname
    unfold repo_prompt_stage
    rw [pyGetD_obj, hro]
    dsimp only
    rw [pyGetD_obj, hname]
    dsimp only
    unfold load_prompt_templates_from_s3
    rw [h]
    rfl
  · intro w s ev
    exact lh_s3_irrel w s ev

/-- C9 witness: with the store unreachable the default prompt is
selected. -/
theorem claim_C9_witness :
    repo_prompt_stage ⟨.ok "t", .ok (200, "d"), .ok ("a", "b", "c"), .ok (200, "x", J.null), .error "NoSuchBucket", .ok "r"⟩
        (J.obj [("repository", J.obj [("name", J.str "some-repo")])])
      = .ok "Default Risk Assessment Prompt" :=
  claim_C9.2.1 _ _ [("name", J.str "some-repo")] "some-repo" "NoSuchBucket" rfl rfl rfl

/-- C10: the handler never propagates an exception and its response is
always one of three shapes: a 200 ignore payload carrying only a message,
the 200 success payload carrying exactly message, pr_number and
diff_length, or a 500 payload whose JSON body is the single error field
holding the exception message. The risk-assessment text can appear in
none of them: the response is independent of the model outcome. -/
theorem claim_C10 (w : World) (ev : J) :
    ((∃ m, lambda_handler w ev = ⟨200, J.obj [("message", J.str m)]⟩) ∨
      (∃ pn dl, lambda_handler w ev = ⟨200, success_body pn dl⟩) ∨
      (∃ m, lambda_handler w ev = ⟨500, J.obj [("error", J.str m)]⟩))
    ∧ (∀ c, lambda_handler (setClaude w c) ev = lambda_handler w ev) := by
  constructor
  · unfold lambda_handler
    cases h : handler_main w ev with
    | error e => exact Or.inr (Or.inr ⟨e, rfl⟩)
    | ok r =>
      rcases handler_main_ok w ev r h with ⟨m, hm⟩ | ⟨pn, dl, hs⟩
      · exact Or.inl ⟨m, by rw [hm]⟩
      · exact Or.inr (Or.inl ⟨pn, dl, by rw [hs]⟩)
  · intro c
    exact lh_claude_irrel w c ev

theorem takeWhile_append_all {p : Char → Bool} (w : List Char) (x : Char) (t : List Char)
    (hw : ∀ c ∈ w, p c = true) (hx : p x = false) :
    (w ++ x :: t).takeWhile p = w ∧ (w ++ x :: t).dropWhile p = x :: t := by
  induction w with
  | nil => simp [List.takeWhile, List.dropWhile, hx]
  | cons a w ih =>
    have ha : p a = true := hw a (by simp)
    have ih2 := ih (fun c hc => hw c (by simp [hc]))
    simp [List.takeWhile, List.dropWhile, ha, ih2.1, ih2.2]

theorem mem_of_takeWhile {p : Char → Bool} (l : List Char) (c : Char)
    (h : c ∈ l.takeWhile p) : p c = true := by
  induction l with
  | nil => cases h
  | cons a l ih =>
    by_cases ha : p a = true
    · rw [List.takeWhile_cons_of_pos ha] at h
      rcases List.mem_cons.mp h with rfl | h
      · exact ha
      · exact ih h
    · rw [List.takeWhile_cons_of_neg ha] at h
      cases h

theorem digit_word (c : Char) (h : c.isDigit = true) : isWordChar c = true := by
  simp [isWordChar, h]

/-- Soundness of the head-position attempt: a returned match decomposes
the input with the key shape and the trailing boundary. -/
theorem matchHere_sound (s m : List Char) (h : matchHere s = some m) :
    ∃ rest, s = m ++ rest ∧ KeyShape m ∧ BoundaryEnd rest := by
  unfold matchHere at h
  dsimp only at h
  have hsd := (List.takeWhile_append_dropWhile isWordChar s).symm
  have hrd := (List.takeWhile_append_dropWhile Char.isDigit (s.dropWhile isWordChar)).symm
  split at h
  · cases h
  · rename_i hw
    split at h
    case h_2 => cases h
    rename_i r2 heq
    split at h
    · cases h
    · rename_i hd
      have hshape : KeyShape (s.takeWhile isWordChar ++ '-' :: r2.takeWhile Char.isDigit) := by
        refine ⟨s.takeWhile isWordChar, r2.takeWhile Char.isDigit, rfl, ?_, ?_, ?_, ?_⟩
        · intro hn; rw [hn] at hw; exact hw rfl
        · exact fun c hc => mem_of_takeWhile s c hc
        · intro hn; rw [hn] at hd; exact hd rfl
        · exact fun c hc => mem_of_takeWhile r2 c hc
      have hs2 : s = s.takeWhile isWordChar ++ '-' :: r2 := by
        conv_lhs => rw [hsd]; rw [heq]
      split at h
      · rename_i hr3
        injection h with h
        subst h
        refine ⟨[], ?_, hshape, ?_⟩
        · rw [List.append_nil]
          have h5 : r2 = r2.takeWhile Char.isDigit := by
            conv_lhs => rw [(List.takeWhile_append_dropWhile Char.isDigit r2).symm]
            rw [hr3, List.append_nil]
          conv_lhs => rw [hs2]
          rw [← h5]
        · intro c hc; cases hc
      · rename_i y r4 hr3
        split at h
        · cases h
        · rename_i hy
          injection h with h
          subst h
          refine ⟨y :: r4, ?_, hshape, ?_⟩
          · have h5 : r2 = r2.takeWhile Char.isDigit ++ y :: r4 := by
              conv_lhs => rw [(List.takeWhile_append_dropWhile Char.isDigit r2).symm]
              rw [hr3]
            conv_lhs => rw [hs2]
            conv_lhs => rw [h5]
            simp
          · intro c hc
            simp at hc
            rw [hc] at hy
            simpa using hy

/-- Completeness of the head-position attempt: on an input that starts
with a key-shaped match followed by a word boundary, the attempt returns
exactly that match. -/
theorem matchHere_complete (m rest : List Char) (hshape : KeyShape m)
    (hbnd : BoundaryEnd rest) : matchHere (m ++ rest) = some m := by
  obtain ⟨w, d, hm, hw, hwall, hd, hdall⟩ := hshape
  subst hm
  have hhyphen : isWordChar '-' = false := by decide
  have h1 : ((w ++ '-' :: d) ++ rest).takeWhile isWordChar = w ∧
      ((w ++ '-' :: d) ++ rest).dropWhile isWordChar = '-' :: (d ++ rest) := by
    have := takeWhile_append_all w '-' (d ++ rest) hwall hhyphen
    simpa using this
  have h2 : (d ++ rest).takeWhile Char.isDigit = d ∧
      (d ++ rest).dropWhile Char.isDigit = rest := by
    cases hrest : rest with
    | nil =>
      constructor
      · rw [List.append_nil]
        exact List.takeWhile_eq_self_iff.mpr hdall
      · rw [List.append_nil]
        exact List.dropWhile_eq_nil_iff.mpr hdall
    | cons y r4 =>
      have hy : isWordChar y = false := hbnd y (by rw [hrest]; rfl)
      have hyd : y.isDigit = false := by
        cases hyy : y.isDigit
        · rfl
        · exact absurd (digit_word y hyy) (by simp [hy])
      exact takeWhile_append_all d y r4 hdall hyd
  have hwne : w.isEmpty = false := by
    cases w
    · exact absurd rfl hw
    · rfl
  have hdne : d.isEmpty = false := by
    cases d
    · exact absurd rfl hd
    · rfl
  simp only [matchHere, h1.1, h1.2, h2.1, h2.2, hwne, hdne, Bool.false_eq_true, if_false]
  cases hrest : rest with
  | nil => rfl
  | cons y r4 =>
    have hy : isWordChar y = false := hbnd y (by rw [hrest]; rfl)
    simp [hy]

/-- Shifting a match split across the head character: a split of the tail
with the head wordness as boundary state is a split of the whole list
with the head prepended to the prefix. -/
theorem matchSplit_cons (prev : Bool) (c : Char) (cs pre2 m rest : List Char) :
    MatchSplit (isWordChar c) cs pre2 m rest ↔ MatchSplit prev (c :: cs) (c :: pre2) m rest := by
  unfold MatchSplit
  cases pre2 with
  | nil =>
    constructor
    · rintro ⟨hs, hshape, hpe, _hlast, hbnd⟩
      refine ⟨by simpa using hs, hshape, ?_, ?_, hbnd⟩
      · intro h; exact nomatch h
      · intro c' hc'
        simp at hc'
        rw [← hc']
        exact hpe rfl
    · rintro ⟨hs, hshape, _hpe, hlast, hbnd⟩
      refine ⟨by simpa using hs, hshape, ?_, ?_, hbnd⟩
      · intro _; exact hlast c (by simp)
      · intro c' hc'; exact nomatch hc'
  | cons p ps =>
    constructor
    · rintro ⟨hs, hshape, _hpe, hlast, hbnd⟩
      refine ⟨by simp [hs], hshape, ?_, ?_, hbnd⟩
      · intro h; exact nomatch h
      · intro c' hc'
        rw [List.getLast?_cons_cons] at hc'
        exact hlast c' hc'
    · rintro ⟨hs, hshape, _hpe, hlast, hbnd⟩
      refine ⟨by simpa using hs, hshape, ?_, ?_, hbnd⟩
      · intro h; exact nomatch h
      · intro c' hc'
        exact hlast c' (by rw [List.getLast?_cons_cons]; exact hc')

/-- When the head attempt fails there is no match at the head position. -/
theorem noHeadSplit_of_none (prev : Bool) (c : Char) (cs m rest : List Char)
    (hm : matchHere (c :: cs) = none) : ¬ MatchSplit prev (c :: cs) [] m rest := by
  rintro ⟨hs, hshape, _, _, hbnd⟩
  have hc := matchHere_complete m rest hshape hbnd
  rw [show m ++ rest = c :: cs from by simpa using hs.symm] at hc
  rw [hm] at hc
  cases hc

/-- When the scan does not even attempt at the head, either because the
previous character was a word character or because the head is not one,
there is no match at the head position. -/
theorem noHeadSplit_of_skip (prev : Bool) (c : Char) (cs m rest : List Char)
    (hb : (!prev && isWordChar c) = false) : ¬ MatchSplit prev (c :: cs) [] m rest := by
  rintro ⟨hs, ⟨w, d, hm, hw, hwall, _, _⟩, hpe, _, _⟩
  have hprev : prev = false := hpe rfl
  subst hprev
  cases w with
  | nil => exact hw rfl
  | cons w0 w' =>
    have hc : c = w0 := by
      subst hm
      simpa using congrArg List.head? hs
    have : isWordChar c = true := hc ▸ hwall w0 (by simp)
    rw [this] at hb
    simp at hb

/-- Transfer of the leftmost match across the head character, when no
match sits at the head position itself. -/
theorem firstKeyAt_cons (prev : Bool) (c : Char) (cs m : List Char)
    (hnohead : ∀ m2 rest2, ¬ MatchSplit prev (c :: cs) [] m2 rest2) :
    FirstKeyAt prev (c :: cs) m ↔ FirstKeyAt (isWordChar c) cs m := by
  constructor
  · rintro ⟨pre, rest, hsp, hmin⟩
    cases pre with
    | nil => exact absurd hsp (hnohead m rest)
    | cons p pre2 =>
      have hpc : p = c := by simpa using congrArg List.head? hsp.1.symm
      subst hpc
      refine ⟨pre2, rest, (matchSplit_cons prev p cs pre2 m rest).mpr hsp, ?_⟩
      intro pre2' m2 rest2 hsp2
      have := hmin (p :: pre2') m2 rest2 ((matchSplit_cons prev p cs pre2' m2 rest2).mp hsp2)
      simpa using this
  · rintro ⟨pre2, rest, hsp2, hmin2⟩
    refine ⟨c :: pre2, rest, (matchSplit_cons prev c cs pre2 m rest).mp hsp2, ?_⟩
    intro pre' m' rest' hsp'
    cases pre' with
    | nil => exact absurd hsp' (hnohead m' rest')
    | cons p' pre2' =>
      have hpc : p' = c := by simpa using congrArg List.head? hsp'.1.symm
      subst hpc
      have := hmin2 pre2' m' rest' ((matchSplit_cons prev p' cs pre2' m' rest').mpr hsp')
      simpa using this

/-- The scan returns exactly the leftmost match. -/
theorem searchKey_some_iff (s : List Char) : ∀ (prev : Bool) (m : List Char),
    searchKey prev s = some m ↔ FirstKeyAt prev s m := by
  induction s with
  | nil =>
    intro prev m
    constructor
    · intro h; cases h
    · rintro ⟨pre, rest, ⟨hs, ⟨w, d, hm, _, _, _, _⟩, _, _, _⟩, _⟩
      subst hm
      simp at hs
  | cons c cs ih =>
    intro prev m
    by_cases hb : (!prev && isWordChar c) = true
    · have hprev : prev = false := by
        cases prev
        · rfl
        · simp at hb
      have hword : isWordChar c = true := by
        cases hcw : isWordChar c
        · rw [hcw] at hb; simp at hb
        · rfl
      subst hprev
      cases hm : matchHere (c :: cs) with
      | some m0 =>
        have hlhs : searchKey false (c :: cs) = some m0 := by
          simp only [searchKey, hb, if_true, hm]
        rw [hlhs]
        obtain ⟨rest0, hs0, hshape0, hbnd0⟩ := matchHere_sound _ _ hm
        have hsp0 : MatchSplit false (c :: cs) [] m0 rest0 := by
          refine ⟨by simpa using hs0, hshape0, ?_, ?_, hbnd0⟩
          · intro _; rfl
          · intro c' hc'; exact nomatch hc'
        constructor
        · intro h
          injection h with h
          subst h
          exact ⟨[], rest0, hsp0, fun pre2 m2 rest2 _ => Nat.zero_le _⟩
        · rintro ⟨pre, rest, hsp, hmin⟩
          have hple := hmin [] m0 rest0 hsp0
          have hpe : pre = [] := List.eq_nil_of_length_eq_zero (Nat.le_zero.mp hple)
          subst hpe
          have hcomp := matchHere_complete m rest hsp.2.1 hsp.2.2.2.2
          rw [show m ++ rest = c :: cs from by simpa using hsp.1.symm, hm] at hcomp
          injection hcomp with hcomp
          rw [hcomp]
      | none =>
        have hlhs : searchKey false (c :: cs) = searchKey true cs := by
          simp only [searchKey, hb, if_true, hm]
        rw [hlhs, ih true m]
        have hno : ∀ m2 rest2, ¬ MatchSplit false (c :: cs) [] m2 rest2 :=
          fun m2 rest2 => noHeadSplit_of_none false c cs m2 rest2 hm
        have htr := firstKeyAt_cons false c cs m hno
        rw [hword] at htr
        exact htr.symm
    · have hbf : (!prev && isWordChar c) = false := by
        cases hbb : (!prev && isWordChar c)
        · rfl
        · exact absurd hbb hb
      have hlhs : searchKey prev (c :: cs) = searchKey (isWordChar c) cs := by
        simp only [searchKey, hbf, Bool.false_eq_true, if_false]
      rw [hlhs, ih (isWordChar c) m]
      exact (firstKeyAt_cons prev c cs m
        (fun m2 rest2 => noHeadSplit_of_skip prev c cs m2 rest2 hbf)).symm

/-- The scan returns nothing exactly when no match exists anywhere. -/
theorem searchKey_none_iff (prev : Bool) (s : List Char) :
    searchKey prev s = none ↔ ∀ pre m rest, ¬ MatchSplit prev s pre m rest := by
  constructor
  · intro h pre m rest hsp
    classical
    have hex : ∃ n, ∃ pre1 m1 rest1, MatchSplit prev s pre1 m1 rest1 ∧ pre1.length = n :=
      ⟨pre.length, pre, m, rest, hsp, rfl⟩
    obtain ⟨pre1, m1, rest1, hsp1, hlen⟩ := Nat.find_spec hex
    have hfirst : FirstKeyAt prev s m1 := by
      refine ⟨pre1, rest1, hsp1, ?_⟩
      intro pre2 m2 rest2 hsp2
      have := Nat.find_min' hex ⟨pre2, m2, rest2, hsp2, rfl⟩
      rw [hlen]
      exact this
    have := (searchKey_some_iff s prev m1).mpr hfirst
    rw [h] at this
    cases this
  · intro h
    cases hk : searchKey prev s with
    | none => rfl
    | some m =>
      obtain ⟨pre, rest, hsp, _⟩ := (searchKey_some_iff s prev m).mp hk
      exact absurd hsp (h pre m rest)

/-- C4: extract_jira_key is pure (a function of the text alone) and, for
every text, returns exactly the upper-cased leftmost occurrence of the
pattern one-or-more word characters, hyphen, one-or-more digits, with
word boundaries, or None when no such occurrence exists; the concrete
examples of the spec follow by instantiation. -/
theorem claim_C4 :
    (∀ (s r : String), extract_jira_key s = some r ↔
        ∃ m, FirstKeyAt false s.toList m ∧ r = String.mk (m.map Char.toUpper))
    ∧ (∀ s : String, extract_jira_key s = none ↔
        ∀ pre m rest, ¬ MatchSplit false s.toList pre m rest)
    ∧ extract_jira_key "Fix bug ABC-123 in login" = some "ABC-123"
    ∧ extract_jira_key "no ticket here" = none
    ∧ extract_jira_key "abc-123" = some "ABC-123"
    ∧ extract_jira_key "Fix AB-1 and CD-2 now" = some "AB-1" := by
  refine ⟨?_, ?_, rfl, rfl, rfl, rfl⟩
  · intro s r
    unfold extract_jira_key
    rw [Option.map_eq_some']
    constructor
    · rintro ⟨m, hm, hr⟩
      exact ⟨m, (searchKey_some_iff s.toList false m).mp hm, hr.symm⟩
    · rintro ⟨m, hm, hr⟩
      exact ⟨m, (searchKey_some_iff s.toList false m).mpr hm, hr.symm⟩
  · intro s
    unfold extract_jira_key
    rw [Option.map_eq_none']
    exact searchKey_none_iff false s.toList

theorem replaceFuel_congr (pat rep : List Char) :
    ∀ n m (s : List Char), s.length ≤ n → s.length ≤ m →
      replaceFuel pat rep n s = replaceFuel pat rep m s := by
  intro n
  induction n with
  | zero =>
    intro m s hn _hm
    have hs : s = [] := List.eq_nil_of_length_eq_zero (Nat.le_zero.mp hn)
    subst hs
    cases m <;> rfl
  | succ n ihn =>
    intro m s hn hm
    cases s with
    | nil => cases m <;> rfl
    | cons c rest =>
      cases m with
      | zero => exact absurd hm (by simp)
      | succ m' =>
        simp only [replaceFuel]
        by_cases hcond : (!pat.isEmpty && pat.isPrefixOf (c :: rest)) = true
        · rw [hcond]
          simp only [if_true]
          have hlen : (List.drop (pat.length - 1) rest).length ≤ n := by
            rw [List.length_drop]
            have h1 : rest.length ≤ n := by
              have := hn
              simp at this
              omega
            omega
          have hlen2 : (List.drop (pat.length - 1) rest).length ≤ m' := by
            rw [List.length_drop]
            have h1 : rest.length ≤ m' := by
              have := hm
              simp at this
              omega
            omega
          rw [ihn m' _ hlen hlen2]
        · rw [Bool.not_eq_true] at hcond
          rw [hcond]
          simp only [Bool.false_eq_true, if_false]
          have h1 : rest.length ≤ n := by
            have := hn
            simp at this
            omega
          have h2 : rest.length ≤ m' := by
            have := hm
            simp at this
            omega
          rw [ihn m' rest h1 h2]

theorem replaceList_nil (pat rep : List Char) : replaceList pat rep [] = [] := rfl

theorem replaceList_cons_pos (pat rep : List Char) (c : Char) (rest : List Char)
    (h : (!pat.isEmpty && pat.isPrefixOf (c :: rest)) = true) :
    replaceList pat rep (c :: rest) =
      rep ++ replaceList pat rep (List.drop (pat.length - 1) rest) := by
  unfold replaceList
  simp only [List.length_cons, replaceFuel, h, if_true]
  rw [replaceFuel_congr pat rep rest.length (List.drop (pat.length - 1) rest).length]
  · rw [List.length_drop]; omega
  · exact Nat.le_refl _

theorem replaceList_cons_neg (pat rep : List Char) (c : Char) (rest : List Char)
    (h : (!pat.isEmpty && pat.isPrefixOf (c :: rest)) = false) :
    replaceList pat rep (c :: rest) = c :: replaceList pat rep rest := by
  unfold replaceList
  simp only [List.length_cons, replaceFuel, h, Bool.false_eq_true, if_false]

theorem simSubst_nil (ps : List (List Char × List Char)) : simSubst ps [] = [] := by
  unfold simSubst
  rfl

theorem simSubst_cons_some (ps : List (List Char × List Char)) (c : Char) (rest : List Char)
    (pv : List Char × List Char)
    (h : ps.find? (fun pv => !pv.1.isEmpty && pv.1.isPrefixOf (c :: rest)) = some pv) :
    simSubst ps (c :: rest) = pv.2 ++ simSubst ps (List.drop (pv.1.length - 1) rest) := by
  conv_lhs => rw [simSubst]
  rw [h]

theorem simSubst_cons_none (ps : List (List Char × List Char)) (c : Char) (rest : List Char)
    (h : ps.find? (fun pv => !pv.1.isEmpty && pv.1.isPrefixOf (c :: rest)) = none) :
    simSubst ps (c :: rest) = c :: simSubst ps rest := by
  conv_lhs => rw [simSubst]
  rw [h]

theorem simSubst_empty (t : List Char) : simSubst [] t = t := by
  induction t with
  | nil => exact simSubst_nil []
  | cons c rest ih => rw [simSubst_cons_none [] c rest rfl, ih]

/-- No token matches at a non-dollar head. -/
theorem find_none_of_head (ps : List (List Char × List Char)) (c : Char) (rest : List Char)
    (hshape : ∀ pv ∈ ps, TokShaped pv.1) (hc : c ≠ '$') :
    ps.find? (fun pv => !pv.1.isEmpty && pv.1.isPrefixOf (c :: rest)) = none := by
  rw [List.find?_eq_none]
  intro pv hpv
  obtain ⟨q, hq, _⟩ := hshape pv hpv
  rw [hq]
  simp only [Bool.and_eq_true, Bool.not_eq_true]
  rintro ⟨-, hpre⟩
  obtain ⟨tl, htl⟩ := List.isPrefixOf_iff_prefix.mp hpre
  have hhead : c = '$' := by
    have h2 := congrArg List.head? htl
    simpa using h2.symm
  exact hc hhead

theorem simSubst_append_nodollar (ps : List (List Char × List Char))
    (hshape : ∀ pv ∈ ps, TokShaped pv.1) (v : List Char) (hv : NoDollar v) (x : List Char) :
    simSubst ps (v ++ x) = v ++ simSubst ps x := by
  induction v with
  | nil => simp
  | cons c v' ih =>
    have hc : c ≠ '$' := fun h => hv (h ▸ List.mem_cons_self c v')
    have ih2 := ih (fun h => hv (List.mem_cons_of_mem c h))
    rw [List.cons_append, simSubst_cons_none ps c (v' ++ x)
      (find_none_of_head ps c (v' ++ x) hshape hc), ih2, List.cons_append]

/-- A token whose head differs from the head of the text is not a prefix
of it. -/
theorem not_prefix_of_head_ne (p : List Char) (q : List Char) (c : Char) (rest : List Char)
    (hp : p = '$' :: q) (hc : c ≠ '$') : ¬ p <+: (c :: rest) := by
  rintro ⟨tl, htl⟩
  rw [hp] at htl
  have := congrArg List.head? htl
  simp at this
  exact hc this.symm

/-- With pairwise prefix-incomparable tokens, the scan finds exactly the
token that matches. -/
theorem find_unique (ps : List (List Char × List Char))
    (hpair : List.Pairwise (fun a b => ¬ a.1 <+: b.1 ∧ ¬ b.1 <+: a.1) ps)
    (p v : List Char) (hmem : (p, v) ∈ ps) (hne : p ≠ []) (s : List Char) (hpre : p <+: s) :
    ps.find? (fun pv => !pv.1.isEmpty && pv.1.isPrefixOf s) = some (p, v) := by
  induction ps with
  | nil => cases hmem
  | cons qu ps ih =>
    rcases List.mem_cons.mp hmem with heq | hmem2
    · subst heq
      apply List.find?_cons_of_pos
      simp only [Bool.and_eq_true, Bool.not_eq_true']
      constructor
      · cases p
        · exact absurd rfl hne
        · rfl
      · exact List.isPrefixOf_iff_prefix.mpr hpre
    · have hpair2 := List.pairwise_cons.mp hpair
      have hnc := hpair2.1 (p, v) hmem2
      have hqnot : ¬ (!qu.1.isEmpty && qu.1.isPrefixOf s) = true := by
        simp only [Bool.and_eq_true, Bool.not_eq_true']
        rintro ⟨-, hqpre⟩
        have hq := List.isPrefixOf_iff_prefix.mp hqpre
        rcases List.prefix_or_prefix_of_prefix hq hpre with h1 | h2
        · exact hnc.1 h1
        · exact hnc.2 h2
      exact (List.find?_cons_of_neg ps hqnot).trans (ih hpair2.2 hmem2)

/-- One replace pass substitutes the match sitting at the head. -/
theorem replaceList_head (p v Y : List Char) (hne : p ≠ []) :
    replaceList p v (p ++ Y) = v ++ replaceList p v Y := by
  cases p with
  | nil => exact absurd rfl hne
  | cons p0 p' =>
    rw [List.cons_append, replaceList_cons_pos]
    · have hdrop : List.drop ((p0 :: p').length - 1) (p' ++ Y) = Y := by
        simp only [List.length_cons, Nat.add_sub_cancel]
        exact List.drop_left p' Y
      rw [hdrop]
    · simp only [Bool.and_eq_true, Bool.not_eq_true']
      constructor
      · rfl
      · exact List.isPrefixOf_iff_prefix.mpr ⟨Y, by simp⟩

/-- The replace condition is false whenever the pattern is not a prefix. -/
theorem repl_cond_false (p s : List Char) (hnp : ¬ p <+: s) :
    (!p.isEmpty && p.isPrefixOf s) = false := by
  cases hpb : p.isPrefixOf s
  · simp
  · exact absurd (List.isPrefixOf_iff_prefix.mp hpb) hnp

/-- One replace pass walks over a dollar-free prefix untouched. -/
theorem replaceList_append_nodollar (p v : List Char) (hp : TokShaped p)
    (u : List Char) (hu : NoDollar u) (x : List Char) :
    replaceList p v (u ++ x) = u ++ replaceList p v x := by
  obtain ⟨q, hq, _⟩ := hp
  induction u with
  | nil => rfl
  | cons c u' ih =>
    have hc : c ≠ '$' := fun h => hu (h ▸ List.mem_cons_self c u')
    have ih2 := ih (fun h => hu (List.mem_cons_of_mem c h))
    have hcondf := repl_cond_false p (c :: (u' ++ x))
      (not_prefix_of_head_ne p q c (u' ++ x) hq hc)
    rw [List.cons_append, replaceList_cons_neg p v c (u' ++ x) hcondf, ih2, List.cons_append]

/-- The one-pass substitution replaces the token sitting at the head by
its value. -/
theorem simSubst_head (ps : List (List Char × List Char))
    (hpair : List.Pairwise (fun a b => ¬ a.1 <+: b.1 ∧ ¬ b.1 <+: a.1) ps)
    (p v : List Char) (hmem : (p, v) ∈ ps) (hne : p ≠ []) (Y : List Char) :
    simSubst ps (p ++ Y) = v ++ simSubst ps Y := by
  cases p with
  | nil => exact absurd rfl hne
  | cons p0 p' =>
    rw [List.cons_append,
      simSubst_cons_some ps p0 (p' ++ Y) (p0 :: p', v)
        (find_unique ps hpair (p0 :: p') v hmem hne (p0 :: (p' ++ Y)) ⟨Y, by simp⟩)]
    have hdrop : List.drop ((p0 :: p').length - 1) (p' ++ Y) = Y := by
      simp only [List.length_cons, Nat.add_sub_cancel]
      exact List.drop_left p' Y
    rw [hdrop]

/-- Decomposing a suffix of an appended list. -/
theorem suffix_append_cases (u v R : List Char) (h : u <:+ v ++ R) :
    u <:+ R ∨ ∃ v', v' <:+ v ∧ v' ≠ [] ∧ u = v' ++ R := by
  induction v with
  | nil => left; simpa using h
  | cons a v' ih =>
    rw [List.cons_append, List.suffix_cons_iff] at h
    rcases h with rfl | h
    · right
      exact ⟨a :: v', List.suffix_refl _, by simp, by simp⟩
    · rcases ih h with h1 | ⟨v'', hv1, hv2, hv3⟩
      · exact Or.inl h1
      · exact Or.inr ⟨v'', List.suffix_cons_iff.mpr (Or.inr hv1), hv2, hv3⟩

/-- The head of a suffix is a member of the larger list. -/
theorem head_mem_of_suffix (u l : List Char) (h : u <:+ l) (a : Char)
    (ha : u.head? = some a) : a ∈ l := by
  cases u with
  | nil => cases ha
  | cons b u' =>
    have hb : b = a := by simpa using ha
    subst hb
    exact List.IsSuffix.mem (List.mem_cons_self b u') h

/-- A nonempty suffix of a token that starts with a dollar is the whole
token. -/
theorem suffix_of_shaped_eq (tok q2 : List Char) (hsh : TokShaped tok)
    (h : q2 <:+ tok) (hd : q2.head? = some '$') : q2 = tok := by
  obtain ⟨qt, rfl, hqt⟩ := hsh
  rcases List.suffix_cons_iff.mp h with rfl | h2
  · rfl
  · exact absurd (head_mem_of_suffix q2 qt h2 '$' hd) hqt

/-- Well-formedness restricts to suffixes. -/
theorem dst_suffix (ps : List (List Char × List Char)) (t t' : List Char)
    (h : DollarStartsToken ps t) (hsuf : t' <:+ t) : DollarStartsToken ps t' :=
  fun u hu hd =>
    h u ((List.mem_tails u t).mpr (((List.mem_tails u t').mp hu).trans hsuf)) hd

/-- Core exchange: under well-formedness, one replace pass of a token
commutes into the one-pass substitution of the remaining tokens, and the
replaced text stays well-formed for the remaining tokens. -/
theorem crux (P : List (List Char × List Char))
    (hshape : ∀ pv ∈ P, TokShaped pv.1)
    (hval : ∀ pv ∈ P, NoDollar pv.2)
    (hpair : List.Pairwise (fun a b => ¬ a.1 <+: b.1 ∧ ¬ b.1 <+: a.1) P)
    (p v : List Char) (hmem : (p, v) ∈ P) :
    ∀ n (t : List Char), t.length ≤ n → DollarStartsToken P t →
      simSubst (P.erase (p, v)) (replaceList p v t) = simSubst P t ∧
      DollarStartsToken (P.erase (p, v)) (replaceList p v t) := by
  obtain ⟨pt, hpt, hptfree⟩ := hshape (p, v) hmem
  replace hpt : p = '$' :: pt := hpt
  have hne : p ≠ [] := by rw [hpt]; simp
  have hvfree : NoDollar v := hval (p, v) hmem
  have hshapeE : ∀ qv ∈ P.erase (p, v), TokShaped qv.1 :=
    fun qv h => hshape qv ((List.erase_sublist (p, v) P).subset h)
  have hpairE : List.Pairwise (fun a b => ¬ a.1 <+: b.1 ∧ ¬ b.1 <+: a.1) (P.erase (p, v)) :=
    List.Pairwise.sublist (List.erase_sublist (p, v) P) hpair
  intro n
  induction n with
  | zero =>
    intro t hlen _hwf
    have ht : t = [] := List.eq_nil_of_length_eq_zero (Nat.le_zero.mp hlen)
    subst ht
    refine ⟨by rw [replaceList_nil, simSubst_nil, simSubst_nil], ?_⟩
    rw [replaceList_nil]
    intro u hu hd
    have hun : u = [] := by simpa using (List.mem_tails u []).mp hu
    subst hun
    cases hd
  | succ n ihn =>
    intro t hlen hwf
    cases t with
    | nil =>
      refine ⟨by rw [replaceList_nil, simSubst_nil, simSubst_nil], ?_⟩
      rw [replaceList_nil]
      intro u hu hd
      have hun : u = [] := by simpa using (List.mem_tails u []).mp hu
      subst hun
      cases hd
    | cons c rest =>
      have hlr : rest.length ≤ n := by
        simp only [List.length_cons] at hlen
        omega
      by_cases hc : c = '$'
      · subst hc
        obtain ⟨qu, hqmem, hqpre⟩ :=
          hwf ('$' :: rest) ((List.mem_tails _ _).mpr (List.suffix_refl _)) rfl
        obtain ⟨q, u0⟩ := qu
        replace hqpre : q <+: ('$' :: rest) := hqpre
        by_cases hp : p <+: ('$' :: rest)
        · obtain ⟨Y, hY⟩ := hp
          have hYlen : Y.length ≤ n := by
            have hl := congrArg List.length hY
            simp only [List.length_append, List.length_cons] at hl
            have hplen : 1 ≤ p.length := by rw [hpt]; simp
            omega
          have hYwf := dst_suffix P _ Y hwf ⟨p, hY⟩
          obtain ⟨ih1, ih2⟩ := ihn Y hYlen hYwf
          have hrl : replaceList p v ('$' :: rest) = v ++ replaceList p v Y := by
            rw [← hY]; exact replaceList_head p v Y hne
          have hsim : simSubst P ('$' :: rest) = v ++ simSubst P Y := by
            rw [← hY]; exact simSubst_head P hpair p v hmem hne Y
          refine ⟨?_, ?_⟩
          · rw [hrl, simSubst_append_nodollar (P.erase (p, v)) hshapeE v hvfree _, ih1, hsim]
          · rw [hrl]
            intro u hu hd
            rcases suffix_append_cases u v (replaceList p v Y) ((List.mem_tails _ _).mp hu) with
              h1 | ⟨v', hv1, hv2, rfl⟩
            · exact ih2 u ((List.mem_tails _ _).mpr h1) hd
            · cases v' with
              | nil => exact absurd rfl hv2
              | cons a v'' =>
                have ha : a = '$' := by simpa using hd
                subst ha
                exact absurd (List.IsSuffix.mem (List.mem_cons_self _ _) hv1) hvfree
        · have hqp : q ≠ p := fun h => hp (h ▸ hqpre)
          have hqupair : (q, u0) ≠ (p, v) := fun h => hqp (congrArg Prod.fst h)
          have hqmemE : (q, u0) ∈ P.erase (p, v) := (List.mem_erase_of_ne hqupair).mpr hqmem
          obtain ⟨qt, hq, hqtfree⟩ := hshape (q, u0) hqmem
          replace hq : q = '$' :: qt := hq
          have hqne : q ≠ [] := by rw [hq]; simp
          obtain ⟨Z, hZ⟩ := hqpre
          have hrest : rest = qt ++ Z := by
            rw [hq] at hZ
            simpa using hZ.symm
          have hZlen : Z.length ≤ n := by
            have hl := congrArg List.length hZ
            simp only [List.length_append, List.length_cons] at hl
            have hqlen : 1 ≤ q.length := by rw [hq]; simp
            omega
          have hZwf := dst_suffix P _ Z hwf ⟨q, hZ⟩
          obtain ⟨ih1, ih2⟩ := ihn Z hZlen hZwf
          have hout : replaceList p v ('$' :: rest) = q ++ replaceList p v Z := by
            rw [replaceList_cons_neg p v '$' rest (repl_cond_false p _ hp), hrest,
              replaceList_append_nodollar p v ⟨pt, hpt, hptfree⟩ qt hqtfree Z, hq,
              List.cons_append]
          have hsimP : simSubst P ('$' :: rest) = u0 ++ simSubst P Z := by
            rw [show ('$' :: rest) = q ++ Z from hZ.symm]
            exact simSubst_head P hpair q u0 hqmem hqne Z
          refine ⟨?_, ?_⟩
          · rw [hout, simSubst_head (P.erase (p, v)) hpairE q u0 hqmemE hqne _, ih1, hsimP]
          · rw [hout]
            intro u hu hd
            rcases suffix_append_cases u q (replaceList p v Z) ((List.mem_tails _ _).mp hu) with
              h1 | ⟨q2, hq1, hq2, rfl⟩
            · exact ih2 u ((List.mem_tails _ _).mpr h1) hd
            · have hq2head : q2.head? = some '$' := by
                cases q2 with
                | nil => exact absurd rfl hq2
                | cons a q3 => simpa using hd
              have hq2eq : q2 = q := suffix_of_shaped_eq q q2 ⟨qt, hq, hqtfree⟩ hq1 hq2head
              subst hq2eq
              exact ⟨(q2, u0), hqmemE, ⟨replaceList p v Z, rfl⟩⟩
      · have hwfrest : DollarStartsToken P rest :=
          dst_suffix P (c :: rest) rest hwf
            (List.suffix_cons_iff.mpr (Or.inr (List.suffix_refl rest)))
        have hrl := replaceList_cons_neg p v c rest
          (repl_cond_false p (c :: rest) (not_prefix_of_head_ne p pt c rest hpt hc))
        obtain ⟨ih1, ih2⟩ := ihn rest hlr hwfrest
        refine ⟨?_, ?_⟩
        · rw [hrl,
            simSubst_cons_none (P.erase (p, v)) c (replaceList p v rest)
              (find_none_of_head (P.erase (p, v)) c _ hshapeE hc),
            ih1,
            simSubst_cons_none P c rest (find_none_of_head P c rest hshape hc)]
        · rw [hrl]
          intro u hu hd
          rcases List.suffix_cons_iff.mp ((List.mem_tails u _).mp hu) with rfl | h2
          · exact absurd (by simpa using hd) hc
          · exact ih2 u ((List.mem_tails u _).mpr h2) hd

/-- The two ways of comparing token-value pairs, the derived product
comparison and the one induced by decidable equality, erase the same
element. -/
theorem erase_beq_eq (P : List (List Char × List Char)) (a : List Char × List Char) :
    @List.erase _ instBEqOfDecidableEq P a = P.erase a := by
  induction P with
  | nil => rfl
  | cons b P ih =>
    by_cases h : b = a
    · subst h
      have e1 : (@BEq.beq _ instBEqOfDecidableEq b b) = true := by
        show decide (b = b) = true
        simp
      have e2 : (@BEq.beq _ instBEqProd b b) = true := beq_self_eq_true b
      simp only [List.erase_cons, e1, e2, if_true]
    · have e1 : (@BEq.beq _ instBEqOfDecidableEq b a) = false := by
        show decide (b = a) = false
        simp [h]
      have e2 : (@BEq.beq _ instBEqProd b a) = false := beq_eq_false_iff_ne.mpr h
      simp only [List.erase_cons, e1, e2, Bool.false_eq_true, if_false, ih]

/-- Main order-independence theorem: folding one replace pass per token,
in any order, over a well-formed template with dollar-free values equals
the simultaneous one-pass substitution, which mentions no order at all. -/
theorem seqReplace_perm_eq_simSubst :
    ∀ (order P : List (List Char × List Char)),
      (∀ pv ∈ P, TokShaped pv.1) → (∀ pv ∈ P, NoDollar pv.2) →
      List.Pairwise (fun a b => ¬ a.1 <+: b.1 ∧ ¬ b.1 <+: a.1) P →
      order.Perm P →
      ∀ t, DollarStartsToken P t → seqReplace order t = simSubst P t := by
  intro order
  induction order with
  | nil =>
    intro P _ _ _ hperm t _
    have hP : P = [] := (hperm.symm).eq_nil
    subst hP
    exact (simSubst_empty t).symm
  | cons pv order' ih =>
    intro P hshape hval hpair hperm t hwf
    obtain ⟨p, v⟩ := pv
    obtain ⟨hmem, hperm0⟩ := List.cons_perm_iff_perm_erase.mp hperm
    have hperm' : order'.Perm (P.erase (p, v)) := by
      rw [← erase_beq_eq P (p, v)]
      exact hperm0
    have hcrux := crux P hshape hval hpair p v hmem t.length t (Nat.le_refl _) hwf
    have hshapeE : ∀ qv ∈ P.erase (p, v), TokShaped qv.1 :=
      fun qv h => hshape qv ((List.erase_sublist (p, v) P).subset h)
    have hvalE : ∀ qv ∈ P.erase (p, v), NoDollar qv.2 :=
      fun qv h => hval qv ((List.erase_sublist (p, v) P).subset h)
    have hpairE : List.Pairwise (fun a b => ¬ a.1 <+: b.1 ∧ ¬ b.1 <+: a.1) (P.erase (p, v)) :=
      List.Pairwise.sublist (List.erase_sublist (p, v) P) hpair
    have hstep : seqReplace ((p, v) :: order') t = seqReplace order' (replaceList p v t) := rfl
    rw [hstep,
      ih (P.erase (p, v)) hshapeE hvalE hpairE hperm' (replaceList p v t) hcrux.2,
      hcrux.1]

theorem ctxPairs_shape (ctx : PromptContext) : ∀ pv ∈ ctxPairs ctx, TokShaped pv.1 := by
  intro pv hpv
  simp only [ctxPairs, List.mem_cons, List.not_mem_nil, or_false] at hpv
  rcases hpv with rfl | rfl | rfl | rfl | rfl
  · exact ⟨"{githubTitle}".toList, rfl, by decide⟩
  · exact ⟨"{githubDescription}".toList, rfl, by decide⟩
  · exact ⟨"{jiraTitle}".toList, rfl, by decide⟩
  · exact ⟨"{jiraDescription}".toList, rfl, by decide⟩
  · exact ⟨"{branchDiff}".toList, rfl, by decide⟩

theorem ctxPairs_nodollar (ctx : PromptContext) (h : CtxNoDollar ctx) :
    ∀ pv ∈ ctxPairs ctx, NoDollar pv.2 := by
  intro pv hpv
  simp only [ctxPairs, List.mem_cons, List.not_mem_nil, or_false] at hpv
  obtain ⟨h1, h2, h3, h4, h5⟩ := h
  rcases hpv with rfl | rfl | rfl | rfl | rfl
  · exact h1
  · exact h2
  · exact h3
  · exact h4
  · exact h5

theorem ctxPairs_pairwise (ctx : PromptContext) :
    List.Pairwise (fun a b => ¬ a.1 <+: b.1 ∧ ¬ b.1 <+: a.1) (ctxPairs ctx) := by
  have h : List.Pairwise (fun a b => ¬ a <+: b ∧ ¬ b <+: a) ((ctxPairs ctx).map Prod.fst) := by
    rw [show (ctxPairs ctx).map Prod.fst = phTokens from rfl]
    decide
  exact List.pairwise_map.mp h

/-- A pass with a pattern that occurs nowhere leaves the text unchanged. -/
theorem replaceList_no_occurrence (pat v s : List Char) (h : ¬ pat <:+: s) :
    replaceList pat v s = s := by
  induction s with
  | nil => rfl
  | cons c rest ih =>
    have hnp : ¬ pat <+: (c :: rest) := fun hp => h hp.isInfix
    have hni : ¬ pat <:+: rest := by
      rintro ⟨s1, s2, hs⟩
      exact h ⟨c :: s1, s2, by rw [← hs]; rfl⟩
    rw [replaceList_cons_neg pat v c rest (repl_cond_false pat _ hnp), ih hni]

/-- Sequential replacement of tokens none of which occurs leaves the text
unchanged. -/
theorem seqReplace_no_occurrence (ps : List (List Char × List Char)) (s : List Char)
    (h : ∀ pv ∈ ps, ¬ pv.1 <:+: s) : seqReplace ps s = s := by
  induction ps with
  | nil => rfl
  | cons pv ps ih =>
    have hstep : seqReplace (pv :: ps) s = seqReplace ps (replaceList pv.1 pv.2 s) := rfl
    rw [hstep, replaceList_no_occurrence pv.1 pv.2 s (h pv (List.mem_cons_self pv ps))]
    exact ih (fun qv hq => h qv (List.mem_cons_of_mem pv hq))

/-- C3 counterexample: as stated by the claim, a substituted value that
contains another placeholder token would be left verbatim; the code
expands it, because the later replace pass re-scans earlier
substitutions. With githubTitle mapping to the literal jiraTitle token
and jiraTitle mapping to J, the output is J instead of the verbatim
token. -/
theorem claim_C3_counterexample :
    build_final_prompt "${githubTitle}" ⟨some "${jiraTitle}", none, some "J", none, none⟩ = "J"
    ∧ ("J" : String) ≠ "${jiraTitle}" := ⟨rfl, by decide⟩

/-- C3 amended: order-independence, exactly-once replacement and absence
of re-scanning hold provided no context value contains the dollar
character and every dollar in the template begins one of the five
placeholder tokens. Under those conditions, folding the replace passes
in any order over the template equals the order-free one-pass
simultaneous substitution, and build_final_prompt computes exactly that
substitution. -/
theorem claim_C3 (ctx : PromptContext) (t : List Char)
    (order : List (List Char × List Char))
    (hval : CtxNoDollar ctx) (hwf : DollarStartsToken (ctxPairs ctx) t)
    (hperm : order.Perm (ctxPairs ctx)) :
    seqReplace order t = simSubst (ctxPairs ctx) t ∧
    build_final_prompt (String.mk t) ctx = String.mk (simSubst (ctxPairs ctx) t) := by
  have h1 := seqReplace_perm_eq_simSubst order (ctxPairs ctx) (ctxPairs_shape ctx)
    (ctxPairs_nodollar ctx hval) (ctxPairs_pairwise ctx) hperm t hwf
  refine ⟨h1, ?_⟩
  unfold build_final_prompt
  have h2 := seqReplace_perm_eq_simSubst (ctxPairs ctx) (ctxPairs ctx) (ctxPairs_shape ctx)
    (ctxPairs_nodollar ctx hval) (ctxPairs_pairwise ctx) (List.Perm.refl _) t hwf
  rw [show (String.mk t).toList = t from rfl, h2]

/-- C3 witness: a concrete template and dollar-free context, with the
five passes folded in reversed order. -/
theorem claim_C3_witness :
    CtxNoDollar ⟨some "X", some "Y", some "Z", some "W", some "D"⟩ ∧
    (seqReplace
        [ ("${branchDiff}".toList, "D".toList)
        , ("${jiraDescription}".toList, "W".toList)
        , ("${jiraTitle}".toList, "Z".toList)
        , ("${githubDescription}".toList, "Y".toList)
        , ("${githubTitle}".toList, "X".toList) ]
        "A ${githubTitle} B ${branchDiff}".toList =
      simSubst (ctxPairs ⟨some "X", some "Y", some "Z", some "W", some "D"⟩)
        "A ${githubTitle} B ${branchDiff}".toList ∧
    build_final_prompt (String.mk "A ${githubTitle} B ${branchDiff}".toList)
        ⟨some "X", some "Y", some "Z", some "W", some "D"⟩ =
      String.mk (simSubst (ctxPairs ⟨some "X", some "Y", some "Z", some "W", some "D"⟩)
        "A ${githubTitle} B ${branchDiff}".toList)) :=
  ⟨by decide,
    claim_C3 ⟨some "X", some "Y", some "Z", some "W", some "D"⟩
      "A ${githubTitle} B ${branchDiff}".toList
      [ ("${branchDiff}".toList, "D".toList)
      , ("${jiraDescription}".toList, "W".toList)
      , ("${jiraTitle}".toList, "Z".toList)
      , ("${githubDescription}".toList, "Y".toList)
      , ("${githubTitle}".toList, "X".toList) ]
      (by decide) (by decide) (by decide)⟩

/-- C5 counterexample: read as simultaneous replacement of every
occurrence of each token by its context value, the claim demands the
githubDescription occurrence become the literal branchDiff token carried
by its value; the code instead expands it to DIFF in the later
branchDiff pass. -/
theorem claim_C5_counterexample :
    build_final_prompt "${githubDescription}" ⟨none, some "${branchDiff}", none, none, some "DIFF"⟩
        = "DIFF"
    ∧ ("DIFF" : String) ≠ "${branchDiff}" := ⟨rfl, by decide⟩

/-- C5 amended: build_final_prompt replaces every occurrence of each of
the five tokens with the context value, an absent key contributing the
empty string, in the sense of the one-pass simultaneous substitution,
provided no context value contains the dollar character and every dollar
in the template begins one of the five tokens; unconditionally, a
template containing none of the five tokens is returned unchanged, and
the concrete examples of the spec hold. -/
theorem claim_C5 :
    (∀ (ctx : PromptContext) (t : List Char), CtxNoDollar ctx →
      DollarStartsToken (ctxPairs ctx) t →
      build_final_prompt (String.mk t) ctx = String.mk (simSubst (ctxPairs ctx) t))
    ∧ (∀ (tpl : String) (ctx : PromptContext),
        (∀ tok ∈ phTokens, ¬ tok <:+: tpl.toList) →
        build_final_prompt tpl ctx = tpl)
    ∧ build_final_prompt "${githubTitle} / ${githubTitle}" ⟨some "X", none, none, none, none⟩
        = "X / X"
    ∧ build_final_prompt "${jiraDescription}" ⟨none, none, none, none, none⟩ = "" := by
  refine ⟨?_, ?_, rfl, rfl⟩
  · intro ctx t hval hwf
    exact (claim_C3 ctx t (ctxPairs ctx) hval hwf (List.Perm.refl _)).2
  · intro tpl ctx htok
    unfold build_final_prompt
    rw [seqReplace_no_occurrence (ctxPairs ctx) tpl.toList ?_]
    · rfl
    · intro pv hpv
      apply htok
      rw [show phTokens = (ctxPairs ctx).map Prod.fst from rfl]
      exact List.mem_map_of_mem Prod.fst hpv

/-- C5 witness: a template with no tokens and a dollar sign is returned
unchanged. -/
theorem claim_C5_witness :
    build_final_prompt "price $5 of {githubTitle}" ⟨some "X", none, none, none, some "D"⟩
      = "price $5 of {githubTitle}" :=
  claim_C5.2.1 "price $5 of {githubTitle}" ⟨some "X", none, none, none, some "D"⟩ (by decide)
